import Mathlib

/-!
Shallow embedding of dendrite's membership-state reconciliation core
(roomserver `internal` package: `updateMemberships`, `updateMembership`,
`updateToInviteMembership`, `updateToJoinMembership`,
`updateToLeaveMembership`, `membershipChanges`, `pairUpChanges`) and of
`federationsender/storage.NewDatabase`.

Event numeric identifiers (EventNID, EventTypeNID, EventStateKeyNID) are
modelled as `Nat`; they are opaque database keys in the source, never
subject to arithmetic.  A Go map keyed by `StateKeyTuple` is modelled as an
association list whose iteration order is insertion order — one admissible
order, since Go map iteration order is unspecified.
-/

/-- Model of `types.StateKeyTuple`: the (event type, state key) identity
pair that room state is keyed on. -/
structure StateKeyTuple where
  EventTypeNID : Nat
  EventStateKeyNID : Nat
deriving DecidableEq

/-- Model of `types.StateEntry`: an embedded `StateKeyTuple` (field `tuple`
models the Go embedded field `StateKeyTuple`) plus the event's numeric
identifier. -/
structure StateEntry where
  tuple : StateKeyTuple
  EventNID : Nat
deriving DecidableEq

/-- Model of `types.MRoomMemberNID`, the numeric identifier of the
`m.room.member` event type (a fixed constant of the types package; its
concrete value is immaterial to every claim). -/
def MRoomMemberNID : Nat := 5

/-- `stateChange` from the source: a `StateKeyTuple` (field `tuple` models
the embedded field) plus the removed and added event identifiers, `0`
standing for Go's zero value "absent". -/
structure stateChange where
  tuple : StateKeyTuple
  removedEventNID : Nat
  addedEventNID : Nat
deriving DecidableEq

/-- Lookup in the association-list model of the Go map `tuples`. -/
def mapLookup : List stateChange → StateKeyTuple → Option stateChange
  | [], _ => none
  | c :: rest, t => if c.tuple = t then some c else mapLookup rest t

/-- Insertion in the association-list model of the Go map `tuples`
(`tuples[k] = v`): replace the entry carrying the same tuple, or append. -/
def mapInsert : List stateChange → stateChange → List stateChange
  | [], c => [c]
  | d :: rest, c => if d.tuple = c.tuple then c :: rest else d :: mapInsert rest c

/-- Body of the first loop of `pairUpChanges`: fold one added entry into
the map (update `addedEventNID` if the tuple is present, else create). -/
def stepAdd (m : List stateChange) (add : StateEntry) : List stateChange :=
  match mapLookup m add.tuple with
  | some change => mapInsert m { change with addedEventNID := add.EventNID }
  | none => mapInsert m ⟨add.tuple, 0, add.EventNID⟩

/-- Body of the second loop of `pairUpChanges`: fold one removed entry into
the map (update `removedEventNID` if the tuple is present, else create). -/
def stepRemove (m : List stateChange) (remove : StateEntry) : List stateChange :=
  match mapLookup m remove.tuple with
  | some change => mapInsert m { change with removedEventNID := remove.EventNID }
  | none => mapInsert m ⟨remove.tuple, remove.EventNID, 0⟩

/-- `pairUpChanges`: added entries are folded in first, then removed
entries, and the map's contents are returned. -/
def pairUpChanges (removed added : List StateEntry) : List stateChange :=
  removed.foldl stepRemove (added.foldl stepAdd [])

/-- `membershipChanges`: keep only the changes whose event type is
`m.room.member`. -/
def membershipChanges (removed added : List StateEntry) : List stateChange :=
  (pairUpChanges removed added).filter (fun c => c.tuple.EventTypeNID == MRoomMemberNID)

/-- The event identifier of the (first) entry of `l` carrying tuple `t`,
if any — the "entry with that tuple" of the specification, well defined
when tuples are unique per collection. -/
def entryFor : List StateEntry → StateKeyTuple → Option Nat
  | [], _ => none
  | e :: rest, t => if e.tuple = t then some e.EventNID else entryFor rest t

/-! ### Events, membership values and output records -/

/-- Model of `gomatrixserverlib.Event` for the fields this code reads: the
event identifier, sender, state key (always set on a membership event) and
the `membership` key of the content.  `membershipField = none` models a
body whose membership field is absent or malformed, the case in which
`Event.Membership` fails. -/
structure Event where
  eventID : String
  sender : String
  stateKey : String
  membershipField : Option String
deriving DecidableEq

/-- The error kinds the reconciliation call can surface.  Go errors are
opaque values; only their origin matters to the claims. -/
inductive Err
  | storeError
  | parseError
  | addNil
  | openHandleError
deriving DecidableEq

/-- `gomatrixserverlib.Invite`. -/
def Invite : String := "invite"

/-- `gomatrixserverlib.Join`. -/
def Join : String := "join"

/-- `gomatrixserverlib.Leave`. -/
def Leave : String := "leave"

/-- `gomatrixserverlib.Ban`. -/
def Ban : String := "ban"

/-- Model of `gomatrixserverlib.Event.Membership()`: the membership value of
the event's content, failing when the field is absent or malformed. -/
def Event.Membership (e : Event) : Except Err String :=
  match e.membershipField with
  | some m => Except.ok m
  | none => Except.error Err.parseError

/-- Model of `gomatrixserverlib.HeaderedEvent` as produced by
`Event.Headered(roomVersion)`. -/
structure HeaderedEvent where
  event : Event
  roomVersion : String
deriving DecidableEq

/-- `Event.Headered`: wrap the event with the room's protocol version. -/
def Event.Headered (e : Event) (roomVersion : String) : HeaderedEvent :=
  ⟨e, roomVersion⟩

/-- `api.OutputNewInviteEvent`. -/
structure OutputNewInviteEvent where
  event : HeaderedEvent
  roomVersion : String
deriving DecidableEq

/-- `api.OutputRetireInviteEvent`. -/
structure OutputRetireInviteEvent where
  eventID : String
  membership : String
  retiredByEventID : String
  targetUserID : String
deriving DecidableEq

/-- `api.OutputEvent`: in Go a struct with a `Type` tag and one non-nil
payload pointer; modelled as a tagged variant. -/
inductive OutputEvent
  | newInvite (e : OutputNewInviteEvent)
  | retireInvite (e : OutputRetireInviteEvent)
deriving DecidableEq

/-- Whether an output record is a "new invite" record. -/
def OutputEvent.isNewInvite : OutputEvent → Bool
  | .newInvite _ => true
  | .retireInvite _ => false

/-- Whether an output record is a "retire invite" record. -/
def OutputEvent.isRetireInvite : OutputEvent → Bool
  | .newInvite _ => false
  | .retireInvite _ => true

/-! ### The participant update handle

The `types.MembershipUpdater` implementation lives in the repository's
storage layer, outside the given source files; its operations are modelled
from the spec (§3, §4.3a–c, §6). -/

/-- The committed membership classification a handle exposes: joined,
invited, or the leave-or-banned default. -/
inductive Memb
  | leaveOrBan
  | invited
  | joined
deriving DecidableEq

/-- Modelled from the spec: the per-participant transactional handle state —
the current membership classification, the outstanding (unretired) invite
event identifiers, and the canonical event reference. -/
structure MUState where
  memb : Memb
  invites : List String
  eventRef : Option String
deriving DecidableEq

/-- A fresh handle: a participant never joined nor invited (spec §3:
absence of membership is the leave default). -/
def freshMUState : MUState := ⟨Memb.leaveOrBan, [], none⟩

/-- Modelled from the spec (§4.3a): `SetToInvite` records the invite as the
participant's current membership only if not already recorded, and reports
whether this is a new invite (true) or a replay (false). -/
def setToInvite (s : MUState) (ev : Event) : Bool × MUState :=
  if s.invites.contains ev.eventID then (false, s)
  else (true, ⟨Memb.invited, s.invites ++ [ev.eventID], some ev.eventID⟩)

/-- Modelled from the spec (§4.3b, §6): `SetToJoin(sender, eventID,
isUpdate)`.  With `isUpdate = true` (retirement suppressed) only the
canonical event reference is updated and nothing is retired; otherwise the
participant is marked joined and the outstanding invites are retired and
returned. -/
def setToJoin (s : MUState) (sender eventID : String) (isUpdate : Bool) :
    List String × MUState :=
  if isUpdate then ([], { s with eventRef := some eventID })
  else (s.invites, ⟨Memb.joined, [], some eventID⟩)

/-- Modelled from the spec (§4.3c, §6): `SetToLeave(sender, eventID)` marks
the participant left/banned and returns the retired outstanding invites. -/
def setToLeave (s : MUState) (sender eventID : String) : List String × MUState :=
  (s.invites, ⟨Memb.leaveOrBan, [], some eventID⟩)

/-- Modelled from the spec (§6): `IsJoin()`. -/
def isJoin (s : MUState) : Bool := s.memb == Memb.joined

/-- Modelled from the spec (§6): `IsLeave()` — the participant is neither
joined nor invited. -/
def isLeave (s : MUState) : Bool := s.memb == Memb.leaveOrBan

/-- What a transition handler returns: the output-record accumulator, the
error (Go's second return value) and the handle state it leaves behind. -/
structure HandlerResult where
  updates : List OutputEvent
  err : Option Err
  state : MUState
deriving DecidableEq

/-- `updateToInviteMembership`: apply `SetToInvite` and, when it reports a
new invite, append one "new invite" record carrying the headered event and
the room's protocol version.  (The modelled `setToInvite` cannot fail, so
the source's error return on its failure has no inhabitant here.) -/
def updateToInviteMembership (mu : MUState) (add : Event)
    (updates : List OutputEvent) (roomVersion : String) : HandlerResult :=
  let r := setToInvite mu add
  if r.1 then
    ⟨updates ++ [OutputEvent.newInvite ⟨add.Headered roomVersion, roomVersion⟩],
      none, r.2⟩
  else ⟨updates, none, r.2⟩

/-- `updateToJoinMembership`: if already joined, `SetToJoin` with
retirement suppressed and no records; otherwise `SetToJoin` with retirement
enabled and one "retire invite" record per retired identifier, tagged with
membership `join`, the joining event and the target participant. -/
def updateToJoinMembership (mu : MUState) (add : Event)
    (updates : List OutputEvent) : HandlerResult :=
  if isJoin mu then
    let r := setToJoin mu add.sender add.eventID true
    ⟨updates, none, r.2⟩
  else
    let r := setToJoin mu add.sender add.eventID false
    ⟨updates ++ r.1.map (fun eventID =>
        OutputEvent.retireInvite ⟨eventID, Join, add.eventID, add.stateKey⟩),
      none, r.2⟩

/-- `updateToLeaveMembership`: if already neither joined nor invited,
return immediately; otherwise `SetToLeave` and one "retire invite" record
per retired identifier, tagged with the actual new membership value. -/
def updateToLeaveMembership (mu : MUState) (add : Event)
    (newMembership : String) (updates : List OutputEvent) : HandlerResult :=
  if isLeave mu then ⟨updates, none, mu⟩
  else
    let r := setToLeave mu add.sender add.eventID
    ⟨updates ++ r.1.map (fun eventID =>
        OutputEvent.retireInvite ⟨eventID, newMembership, add.eventID, add.stateKey⟩),
      none, r.2⟩

/-! ### The room updater environment -/

/-- Model of `types.RoomRecentEventsUpdater` as the claims observe it: the
room's protocol version, the per-participant handle states, the
participants for whom opening a handle fails (the external store may fail,
spec §6–§7), and — instrumentation — the participants a handle was opened
for, in order. -/
structure UpdaterEnv where
  roomVersion : String
  states : List (Nat × MUState)
  openFails : List Nat
  opens : List Nat
deriving DecidableEq

/-- The handle state recorded for a participant, fresh when none is. -/
def lookupState (env : UpdaterEnv) (nid : Nat) : MUState :=
  ((env.states.find? (fun p => p.1 == nid)).map Prod.snd).getD freshMUState

/-- Record a participant's handle state back into the environment. -/
def writeState (env : UpdaterEnv) (nid : Nat) (s : MUState) : UpdaterEnv :=
  { env with states := (nid, s) :: env.states.filter (fun p => !(p.1 == nid)) }

/-- Model of `updater.MembershipUpdater(targetUserNID)`: open the
per-participant handle, or fail when the store does. -/
def membershipUpdater (env : UpdaterEnv) (nid : Nat) :
    Except Err (MUState × UpdaterEnv) :=
  if env.openFails.contains nid then Except.error Err.openHandleError
  else Except.ok (lookupState env nid, { env with opens := env.opens ++ [nid] })

/-- What `updateMembership` returns: Go's `([]api.OutputEvent, error)` pair
(plus the updated environment), or a panic — the source's `default:` branch
panics with the offending membership value. -/
inductive UMResult
  | ret (updates : List OutputEvent) (err : Option Err) (env : UpdaterEnv)
  | panicked (badMembership : String)
deriving DecidableEq

/-- Whether `updateMembership` returned (as opposed to panicking). -/
def UMResult.isRet : UMResult → Bool
  | .ret _ _ _ => true
  | .panicked _ => false

/-- The environment a returning `UMResult` leaves behind. -/
def UMResult.envOf : UMResult → Option UpdaterEnv
  | .ret _ _ env => some env
  | .panicked _ => none

/-- Lines 88–103 of the source as one total classification step: the
membership of an optional event, defaulting to `Leave` when the event is
absent (`nil`), the parse failure propagated otherwise. -/
def classifyMembership : Option Event → Except Err String
  | none => Except.ok Leave
  | some e => e.Membership

/-- `updateMembership`: classify both sides, short-circuit a non-join
no-op, check the add-event invariant, open the participant handle and
dispatch on the new membership — panicking, like the source's `default:`
branch, on a value outside the enumeration. -/
def updateMembership (env : UpdaterEnv) (targetUserNID : Nat)
    (remove add : Option Event) (updates : List OutputEvent) : UMResult :=
  match classifyMembership remove with
  | Except.error e => UMResult.ret [] (some e) env
  | Except.ok oldMembership =>
  match classifyMembership add with
  | Except.error e => UMResult.ret [] (some e) env
  | Except.ok newMembership =>
  if oldMembership = newMembership ∧ newMembership ≠ Join then
    UMResult.ret updates none env
  else
    match add with
    | none => UMResult.ret updates (some Err.addNil) env
    | some addEv =>
      match membershipUpdater env targetUserNID with
      | Except.error e => UMResult.ret [] (some e) env
      | Except.ok (mu, env1) =>
        if newMembership = Invite then
          let r := updateToInviteMembership mu addEv updates env.roomVersion
          UMResult.ret r.updates r.err (writeState env1 targetUserNID r.state)
        else if newMembership = Join then
          let r := updateToJoinMembership mu addEv updates
          UMResult.ret r.updates r.err (writeState env1 targetUserNID r.state)
        else if newMembership = Leave ∨ newMembership = Ban then
          let r := updateToLeaveMembership mu addEv newMembership updates
          UMResult.ret r.updates r.err (writeState env1 targetUserNID r.state)
        else UMResult.panicked newMembership

/-! ### The event store and the top-level reconciliation -/

/-- Model of the event store (`storage.Database.Events`): its rows plus a
failure flag — the external collaborator may fail (spec §6). -/
structure DB where
  events : List (Nat × Event)
  fail : Bool
deriving DecidableEq

/-- `db.Events(ctx, eventNIDs)`: the batch load.  Unknown identifiers are
omitted, not an error; the load as a whole may fail. -/
def DB.Events (db : DB) (eventNIDs : List Nat) : Except Err (List (Nat × Event)) :=
  if db.fail then Except.error Err.storeError
  else Except.ok (db.events.filter (fun p => eventNIDs.contains p.1))

/-- `eventMap(events).lookup(nid)`: the event with that numeric identifier,
if loaded (`ev != nil` in the source). -/
def lookupEvent (events : List (Nat × Event)) (nid : Nat) : Option Event :=
  (events.find? (fun p => p.1 == nid)).map Prod.snd

/-- Lines 39–47 of the source: the event identifiers referenced by the
changes, added side first per change, zeroes skipped. -/
def collectEventNIDs (changes : List stateChange) : List Nat :=
  changes.foldl (fun acc c =>
    let acc1 := if c.addedEventNID ≠ 0 then acc ++ [c.addedEventNID] else acc
    if c.removedEventNID ≠ 0 then acc1 ++ [c.removedEventNID] else acc1) []

/-- What `updateMemberships` returns: Go's `([]api.OutputEvent, error)`
pair (plus the environment), or a propagated panic. -/
inductive UMSResult
  | ret (records : List OutputEvent) (err : Option Err) (env : UpdaterEnv)
  | panicked (badMembership : String)
deriving DecidableEq

/-- The loop of lines 59–78: resolve each change's removed and added event
bodies and run `updateMembership`, aborting with `nil` records on error. -/
def processChanges (events : List (Nat × Event)) (env : UpdaterEnv)
    (changes : List stateChange) (updates : List OutputEvent) : UMSResult :=
  match changes with
  | [] => UMSResult.ret updates none env
  | change :: rest =>
    let re := if change.removedEventNID ≠ 0
              then lookupEvent events change.removedEventNID else none
    let ae := if change.addedEventNID ≠ 0
              then lookupEvent events change.addedEventNID else none
    match updateMembership env change.tuple.EventStateKeyNID re ae updates with
    | UMResult.panicked m => UMSResult.panicked m
    | UMResult.ret _ (some e) env1 => UMSResult.ret [] (some e) env1
    | UMResult.ret ups none env1 => processChanges events env1 rest ups

/-- `updateMemberships`: pair and filter the state delta, batch-load the
referenced events, then process every change, accumulating records. -/
def updateMemberships (db : DB) (env : UpdaterEnv)
    (removed added : List StateEntry) : UMSResult :=
  let changes := membershipChanges removed added
  match db.Events (collectEventNIDs changes) with
  | Except.error e => UMSResult.ret [] (some e) env
  | Except.ok events => processChanges events env changes []

/-! ### `federationsender/storage.NewDatabase` -/

/-- The one field of Go's `url.URL` this dispatch reads. -/
structure URL where
  Scheme : String
deriving DecidableEq

/-- Opaque model of `common.DbProperties` (its contents are passed through
untouched). -/
structure DbProperties where
  properties : List (String × String)
deriving DecidableEq

/-- Which backend `NewDatabase` opens, with the arguments handed to it. -/
inductive DBChoice
  | sqlite3 (dataSourceName : String)
  | postgres (dataSourceName : String) (props : DbProperties)
deriving DecidableEq

/-- `NewDatabase`, parametrised over the outcome of Go's `url.Parse`
(standard-library code, abstracted as a function argument): sqlite3 for a
parsed URL with scheme "file", postgres for scheme "postgres", any other
scheme, or a parse failure. -/
def NewDatabase (urlParse : String → Except String URL)
    (dataSourceName : String) (props : DbProperties) : DBChoice :=
  match urlParse dataSourceName with
  | Except.error _ => DBChoice.postgres dataSourceName props
  | Except.ok uri =>
    if uri.Scheme = "file" then DBChoice.sqlite3 dataSourceName
    else if uri.Scheme = "postgres" then DBChoice.postgres dataSourceName props
    else DBChoice.postgres dataSourceName props

/-- The environment at which C8's concrete inputs are evaluated. -/
def env0 : UpdaterEnv := ⟨"1", [], [], []⟩

/-- A membership event whose membership value, "knock", lies outside the
enumeration {invite, join, leave, ban}. -/
def knockEvent : Event := ⟨"$knock", "@b", "@b", some "knock"⟩

/-! ### Association-list lemmas for `pairUpChanges` -/

theorem mapLookup_mapInsert (m : List stateChange) (c : stateChange) (t : StateKeyTuple) :
    mapLookup (mapInsert m c) t = if c.tuple = t then some c else mapLookup m t := by
  induction m with
  | nil => simp [mapInsert, mapLookup]
  | cons d rest ih =>
    by_cases hdc : d.tuple = c.tuple
    · by_cases hct : c.tuple = t <;> simp_all [mapInsert, mapLookup]
    · by_cases hct : c.tuple = t <;> by_cases hdt : d.tuple = t <;>
        simp_all [mapInsert, mapLookup]

theorem mapLookup_eq_some_tuple (m : List stateChange) (t : StateKeyTuple)
    (c : stateChange) (h : mapLookup m t = some c) : c.tuple = t := by
  induction m with
  | nil => simp [mapLookup] at h
  | cons d rest ih =>
    by_cases hdt : d.tuple = t <;> simp_all [mapLookup]

theorem mapLookup_eq_none_iff (m : List stateChange) (t : StateKeyTuple) :
    mapLookup m t = none ↔ t ∉ m.map stateChange.tuple := by
  induction m with
  | nil => simp [mapLookup]
  | cons d rest ih =>
    by_cases hdt : d.tuple = t <;> simp_all [mapLookup, eq_comm]

theorem map_tuple_mapInsert (m : List stateChange) (c : stateChange) :
    (mapInsert m c).map stateChange.tuple =
      if mapLookup m c.tuple = none then m.map stateChange.tuple ++ [c.tuple]
      else m.map stateChange.tuple := by
  induction m with
  | nil => simp [mapInsert, mapLookup]
  | cons d rest ih =>
    by_cases hdc : d.tuple = c.tuple <;> simp_all [mapInsert, mapLookup]
    split_ifs <;> simp

/-- Keys of the association list stay without repetition under insertion. -/
theorem nodup_mapInsert (m : List stateChange) (c : stateChange)
    (h : (m.map stateChange.tuple).Nodup) :
    ((mapInsert m c).map stateChange.tuple).Nodup := by
  rw [map_tuple_mapInsert]
  by_cases hl : mapLookup m c.tuple = none
  · have hmem : c.tuple ∉ m.map stateChange.tuple := (mapLookup_eq_none_iff m c.tuple).mp hl
    simp [hl, List.nodup_append, h, hmem]
  · simp [hl, h]

theorem mapLookup_stepAdd (m : List stateChange) (a : StateEntry) (t : StateKeyTuple) :
    mapLookup (stepAdd m a) t =
      if a.tuple = t then
        some (match mapLookup m a.tuple with
              | some c => { c with addedEventNID := a.EventNID }
              | none => ⟨a.tuple, 0, a.EventNID⟩)
      else mapLookup m t := by
  unfold stepAdd
  cases hm : mapLookup m a.tuple with
  | none => rw [mapLookup_mapInsert]
  | some c =>
    have hc : c.tuple = a.tuple := mapLookup_eq_some_tuple m a.tuple c hm
    rw [mapLookup_mapInsert]
    simp only [hc]

theorem mapLookup_stepRemove (m : List stateChange) (r : StateEntry) (t : StateKeyTuple) :
    mapLookup (stepRemove m r) t =
      if r.tuple = t then
        some (match mapLookup m r.tuple with
              | some c => { c with removedEventNID := r.EventNID }
              | none => ⟨r.tuple, r.EventNID, 0⟩)
      else mapLookup m t := by
  unfold stepRemove
  cases hm : mapLookup m r.tuple with
  | none => rw [mapLookup_mapInsert]
  | some c =>
    have hc : c.tuple = r.tuple := mapLookup_eq_some_tuple m r.tuple c hm
    rw [mapLookup_mapInsert]
    simp only [hc]

theorem mapLookup_foldl_stepAdd_absent (l : List StateEntry) (m : List stateChange)
    (t : StateKeyTuple) (h : t ∉ l.map StateEntry.tuple) :
    mapLookup (l.foldl stepAdd m) t = mapLookup m t := by
  induction l generalizing m with
  | nil => rfl
  | cons a l ih =>
    simp only [List.map_cons, List.mem_cons] at h
    push_neg at h
    simp only [List.foldl_cons]
    rw [ih (stepAdd m a) h.2, mapLookup_stepAdd,
      if_neg (fun he : a.tuple = t => h.1 he.symm)]

theorem mapLookup_foldl_stepRemove_absent (l : List StateEntry) (m : List stateChange)
    (t : StateKeyTuple) (h : t ∉ l.map StateEntry.tuple) :
    mapLookup (l.foldl stepRemove m) t = mapLookup m t := by
  induction l generalizing m with
  | nil => rfl
  | cons r l ih =>
    simp only [List.map_cons, List.mem_cons] at h
    push_neg at h
    simp only [List.foldl_cons]
    rw [ih (stepRemove m r) h.2, mapLookup_stepRemove,
      if_neg (fun he : r.tuple = t => h.1 he.symm)]

/-- After folding a duplicate-free added collection into the map, lookup at
`t` yields the old entry with `addedEventNID` overwritten by the collection's
entry for `t` (or a fresh entry), and is untouched when `t` is absent. -/
theorem mapLookup_foldl_stepAdd (l : List StateEntry) (m : List stateChange)
    (t : StateKeyTuple) (h : (l.map StateEntry.tuple).Nodup) :
    mapLookup (l.foldl stepAdd m) t =
      match entryFor l t with
      | some nid =>
        some (match mapLookup m t with
              | some c => { c with addedEventNID := nid }
              | none => ⟨t, 0, nid⟩)
      | none => mapLookup m t := by
  induction l generalizing m with
  | nil => rfl
  | cons a l ih =>
    simp only [List.map_cons, List.nodup_cons] at h
    by_cases hat : a.tuple = t
    · subst hat
      simp only [List.foldl_cons, entryFor, if_pos rfl]
      rw [mapLookup_foldl_stepAdd_absent l (stepAdd m a) a.tuple h.1,
        mapLookup_stepAdd]
      simp
    · simp only [List.foldl_cons, entryFor, if_neg hat]
      rw [ih (stepAdd m a) h.2, mapLookup_stepAdd]
      simp [hat]

/-- Analogue of `mapLookup_foldl_stepAdd` for the removed collection. -/
theorem mapLookup_foldl_stepRemove (l : List StateEntry) (m : List stateChange)
    (t : StateKeyTuple) (h : (l.map StateEntry.tuple).Nodup) :
    mapLookup (l.foldl stepRemove m) t =
      match entryFor l t with
      | some nid =>
        some (match mapLookup m t with
              | some c => { c with removedEventNID := nid }
              | none => ⟨t, nid, 0⟩)
      | none => mapLookup m t := by
  induction l generalizing m with
  | nil => rfl
  | cons r l ih =>
    simp only [List.map_cons, List.nodup_cons] at h
    by_cases hrt : r.tuple = t
    · subst hrt
      simp only [List.foldl_cons, entryFor, if_pos rfl]
      rw [mapLookup_foldl_stepRemove_absent l (stepRemove m r) r.tuple h.1,
        mapLookup_stepRemove]
      simp
    · simp only [List.foldl_cons, entryFor, if_neg hrt]
      rw [ih (stepRemove m r) h.2, mapLookup_stepRemove]
      simp [hrt]

/-- The map built by `pairUpChanges` holds, at every tuple present on either
side, exactly the pairing of that tuple's removed and added identifiers. -/
theorem mapLookup_pairUpChanges (removed added : List StateEntry) (t : StateKeyTuple)
    (hr : (removed.map StateEntry.tuple).Nodup)
    (ha : (added.map StateEntry.tuple).Nodup) :
    mapLookup (pairUpChanges removed added) t =
      match entryFor removed t, entryFor added t with
      | none, none => none
      | rn, an => some ⟨t, rn.getD 0, an.getD 0⟩ := by
  unfold pairUpChanges
  rw [mapLookup_foldl_stepRemove removed _ t hr, mapLookup_foldl_stepAdd added [] t ha]
  cases hrn : entryFor removed t <;> cases han : entryFor added t <;> simp [mapLookup]

theorem nodup_tuples_stepAdd (m : List stateChange) (a : StateEntry)
    (h : (m.map stateChange.tuple).Nodup) :
    ((stepAdd m a).map stateChange.tuple).Nodup := by
  unfold stepAdd
  cases mapLookup m a.tuple <;> exact nodup_mapInsert _ _ h

theorem nodup_tuples_stepRemove (m : List stateChange) (r : StateEntry)
    (h : (m.map stateChange.tuple).Nodup) :
    ((stepRemove m r).map stateChange.tuple).Nodup := by
  unfold stepRemove
  cases mapLookup m r.tuple <;> exact nodup_mapInsert _ _ h

theorem nodup_tuples_pairUpChanges (removed added : List StateEntry) :
    ((pairUpChanges removed added).map stateChange.tuple).Nodup := by
  unfold pairUpChanges
  have hstep : ∀ (l : List StateEntry) (m : List stateChange),
      (m.map stateChange.tuple).Nodup →
      ((l.foldl stepAdd m).map stateChange.tuple).Nodup := by
    intro l
    induction l with
    | nil => intro m hm; exact hm
    | cons a l ih => intro m hm; exact ih _ (nodup_tuples_stepAdd m a hm)
  have hstepR : ∀ (l : List StateEntry) (m : List stateChange),
      (m.map stateChange.tuple).Nodup →
      ((l.foldl stepRemove m).map stateChange.tuple).Nodup := by
    intro l
    induction l with
    | nil => intro m hm; exact hm
    | cons r l ih => intro m hm; exact ih _ (nodup_tuples_stepRemove m r hm)
  exact hstepR removed _ (hstep added [] (by simp))

theorem countP_eq_zero_of_absent (m : List stateChange) (t : StateKeyTuple)
    (h : t ∉ m.map stateChange.tuple) :
    m.countP (fun c => decide (c.tuple = t)) = 0 := by
  induction m with
  | nil => rfl
  | cons c rest ih =>
    simp only [List.map_cons, List.mem_cons] at h
    push_neg at h
    rw [List.countP_cons]
    have hne : ¬ c.tuple = t := fun he => h.1 he.symm
    simp [ih h.2, hne]

theorem countP_of_nodup_tuples (m : List stateChange) (t : StateKeyTuple)
    (h : (m.map stateChange.tuple).Nodup) :
    m.countP (fun c => decide (c.tuple = t)) =
      if (mapLookup m t).isSome then 1 else 0 := by
  induction m with
  | nil => rfl
  | cons c rest ih =>
    simp only [List.map_cons, List.nodup_cons] at h
    rw [List.countP_cons]
    by_cases hct : c.tuple = t
    · subst hct
      rw [countP_eq_zero_of_absent rest c.tuple h.1]
      simp [mapLookup]
    · rw [ih h.2]
      simp [mapLookup, hct]

theorem mapLookup_of_mem (m : List stateChange) (c : stateChange)
    (h : (m.map stateChange.tuple).Nodup) (hc : c ∈ m) :
    mapLookup m c.tuple = some c := by
  induction m with
  | nil => simp at hc
  | cons d rest ih =>
    simp only [List.map_cons, List.nodup_cons] at h
    rcases List.mem_cons.mp hc with h1 | h1
    · subst h1; simp [mapLookup]
    · have hne : ¬ d.tuple = c.tuple := by
        intro he
        exact h.1 (he ▸ List.mem_map_of_mem stateChange.tuple h1)
      simp only [mapLookup, if_neg hne]
      exact ih h.2 h1

theorem entryFor_isSome_iff (l : List StateEntry) (t : StateKeyTuple) :
    (entryFor l t).isSome = true ↔ ∃ e ∈ l, e.tuple = t := by
  induction l with
  | nil => simp [entryFor]
  | cons e rest ih =>
    by_cases het : e.tuple = t <;> simp_all [entryFor]

/-- C1: for collections carrying at most one entry per tuple and side (the
precondition under which the claim's "the entry with that tuple" is well
defined; spec §4.1 assumes it of the upstream resolver), `pairUpChanges`
returns exactly one change record per distinct `StateKeyTuple` occurring in
either collection, and in each record `addedEventNID` / `removedEventNID`
is the `EventNID` of that tuple's entry in the added / removed collection,
`0` when the tuple is absent from that side. -/
theorem pairUpChanges_pairs_changes (removed added : List StateEntry)
    (hr : (removed.map StateEntry.tuple).Nodup)
    (ha : (added.map StateEntry.tuple).Nodup)
    (t : StateKeyTuple) :
    (pairUpChanges removed added).countP (fun c => decide (c.tuple = t)) =
      (if (∃ e ∈ removed, e.tuple = t) ∨ (∃ e ∈ added, e.tuple = t) then 1 else 0)
    ∧ ∀ c ∈ pairUpChanges removed added, c.tuple = t →
        c.addedEventNID = (entryFor added t).getD 0 ∧
        c.removedEventNID = (entryFor removed t).getD 0 := by
  constructor
  · rw [countP_of_nodup_tuples _ t (nodup_tuples_pairUpChanges removed added),
      mapLookup_pairUpChanges removed added t hr ha]
    cases hrn : entryFor removed t <;> cases han : entryFor added t
    · have h1 : ¬ ((∃ e ∈ removed, e.tuple = t) ∨ (∃ e ∈ added, e.tuple = t)) := by
        rintro (h | h)
        · have h2 := (entryFor_isSome_iff removed t).mpr h
          rw [hrn] at h2
          simp at h2
        · have h2 := (entryFor_isSome_iff added t).mpr h
          rw [han] at h2
          simp at h2
      simp [h1]
    · have h2 : (∃ e ∈ removed, e.tuple = t) ∨ (∃ e ∈ added, e.tuple = t) :=
        Or.inr ((entryFor_isSome_iff added t).mp (by rw [han]; rfl))
      simp [h2]
    · have h2 : (∃ e ∈ removed, e.tuple = t) ∨ (∃ e ∈ added, e.tuple = t) :=
        Or.inl ((entryFor_isSome_iff removed t).mp (by rw [hrn]; rfl))
      simp [h2]
    · have h2 : (∃ e ∈ removed, e.tuple = t) ∨ (∃ e ∈ added, e.tuple = t) :=
        Or.inl ((entryFor_isSome_iff removed t).mp (by rw [hrn]; rfl))
      simp [h2]
  · intro c hc hct
    have hl := mapLookup_of_mem _ c (nodup_tuples_pairUpChanges removed added) hc
    rw [hct, mapLookup_pairUpChanges removed added t hr ha] at hl
    cases hrn : entryFor removed t <;> cases han : entryFor added t <;>
      rw [hrn, han] at hl
    · simp at hl
    · have hl2 := Option.some.inj hl
      subst hl2
      exact ⟨rfl, rfl⟩
    · have hl2 := Option.some.inj hl
      subst hl2
      exact ⟨rfl, rfl⟩
    · have hl2 := Option.some.inj hl
      subst hl2
      exact ⟨rfl, rfl⟩

/-- Witness for C1 at a concrete overlapping pair of collections. -/
theorem pairUpChanges_pairs_changes_witness :
    (pairUpChanges [⟨⟨5, 1⟩, 10⟩] [⟨⟨5, 1⟩, 20⟩, ⟨⟨5, 2⟩, 30⟩]).countP
        (fun c => decide (c.tuple = ⟨5, 1⟩)) =
      (if (∃ e ∈ ([⟨⟨5, 1⟩, 10⟩] : List StateEntry), e.tuple = ⟨5, 1⟩) ∨
          (∃ e ∈ ([⟨⟨5, 1⟩, 20⟩, ⟨⟨5, 2⟩, 30⟩] : List StateEntry), e.tuple = ⟨5, 1⟩)
       then 1 else 0) :=
  (pairUpChanges_pairs_changes [⟨⟨5, 1⟩, 10⟩] [⟨⟨5, 1⟩, 20⟩, ⟨⟨5, 2⟩, 30⟩]
    (by decide) (by decide) ⟨5, 1⟩).1

/-! ### Claim theorems -/

/-- C2: the invite transition appends exactly one "new invite" record
(carrying the headered event and the room's protocol version) when
`SetToInvite` reports the invite as new, and none when it reports a replay;
hence two runs with the same invite event against a fresh handle yield
exactly one "new invite" record in total, the second contributing none. -/
theorem updateToInviteMembership_dedup (mu : MUState) (add : Event)
    (updates : List OutputEvent) (rv : String) :
    ((updateToInviteMembership mu add updates rv).err = none ∧
     (updateToInviteMembership mu add updates rv).updates =
       (if (setToInvite mu add).1 then
          updates ++ [OutputEvent.newInvite ⟨add.Headered rv, rv⟩]
        else updates))
    ∧ ((updateToInviteMembership freshMUState add [] rv).updates.countP
         OutputEvent.isNewInvite = 1 ∧
       ((updateToInviteMembership
           (updateToInviteMembership freshMUState add [] rv).state add
           (updateToInviteMembership freshMUState add [] rv).updates rv).updates.countP
         OutputEvent.isNewInvite = 1)) := by
  refine ⟨⟨?_, ?_⟩, ?_, ?_⟩
  · by_cases h : (setToInvite mu add).1 <;>
      simp [updateToInviteMembership, h]
  · by_cases h : (setToInvite mu add).1 <;>
      simp [updateToInviteMembership, h]
  · simp [updateToInviteMembership, setToInvite, freshMUState,
      OutputEvent.isNewInvite]
  · simp [updateToInviteMembership, setToInvite, freshMUState,
      OutputEvent.isNewInvite]

/-- C3: the join transition calls `SetToJoin` with retirement suppressed
and appends nothing when the handle reports the participant joined, and
otherwise calls it with retirement enabled and appends one "retire invite"
record per retired identifier, tagged with membership `join`, the joining
event's identifier and the target participant; a participant holding one
outstanding invite yields exactly one such record, and a second join none. -/
theorem updateToJoinMembership_retires (mu : MUState) (add : Event)
    (updates : List OutputEvent) :
    ((updateToJoinMembership mu add updates).err = none ∧
     (isJoin mu = true →
        (updateToJoinMembership mu add updates).updates = updates ∧
        (updateToJoinMembership mu add updates).state =
          (setToJoin mu add.sender add.eventID true).2) ∧
     (isJoin mu = false →
        (updateToJoinMembership mu add updates).updates =
          updates ++ (setToJoin mu add.sender add.eventID false).1.map
            (fun eventID =>
              OutputEvent.retireInvite ⟨eventID, Join, add.eventID, add.stateKey⟩) ∧
        (updateToJoinMembership mu add updates).state =
          (setToJoin mu add.sender add.eventID false).2))
    ∧ (∀ inviteID ref,
        (updateToJoinMembership ⟨Memb.invited, [inviteID], ref⟩ add []).updates.countP
          OutputEvent.isRetireInvite = 1 ∧
        isJoin (updateToJoinMembership ⟨Memb.invited, [inviteID], ref⟩ add []).state
          = true ∧
        (updateToJoinMembership
            (updateToJoinMembership ⟨Memb.invited, [inviteID], ref⟩ add []).state add
            (updateToJoinMembership ⟨Memb.invited, [inviteID], ref⟩ add []).updates).updates
          = (updateToJoinMembership ⟨Memb.invited, [inviteID], ref⟩ add []).updates) := by
  refine ⟨⟨?_, ?_, ?_⟩, ?_⟩
  · by_cases h : isJoin mu <;> simp [updateToJoinMembership, h]
  · intro h
    simp [updateToJoinMembership, h]
  · intro h
    simp [updateToJoinMembership, h]
  · intro inviteID ref
    refine ⟨?_, ?_, ?_⟩ <;>
      simp [updateToJoinMembership, setToJoin, isJoin,
        OutputEvent.isRetireInvite]

/-- C4: the leave-or-ban transition appends nothing and leaves the handle
untouched when the participant is already in a leave-or-banned state, and
otherwise calls `SetToLeave` and appends one "retire invite" record per
retired identifier, tagged with the actual new membership value (leave or
ban, not normalized), the triggering event's identifier and the target
participant. -/
theorem updateToLeaveMembership_retires (mu : MUState) (add : Event)
    (newMembership : String) (updates : List OutputEvent) :
    ((updateToLeaveMembership mu add newMembership updates).err = none ∧
     (isLeave mu = true →
        (updateToLeaveMembership mu add newMembership updates).updates = updates ∧
        (updateToLeaveMembership mu add newMembership updates).state = mu) ∧
     (isLeave mu = false →
        (updateToLeaveMembership mu add newMembership updates).updates =
          updates ++ (setToLeave mu add.sender add.eventID).1.map
            (fun eventID =>
              OutputEvent.retireInvite
                ⟨eventID, newMembership, add.eventID, add.stateKey⟩) ∧
        (updateToLeaveMembership mu add newMembership updates).state =
          (setToLeave mu add.sender add.eventID).2))
    ∧ (∀ inviteID ref,
        (updateToLeaveMembership ⟨Memb.invited, [inviteID], ref⟩ add
            newMembership []).updates =
          [OutputEvent.retireInvite
            ⟨inviteID, newMembership, add.eventID, add.stateKey⟩] ∧
        (updateToLeaveMembership
            (updateToLeaveMembership ⟨Memb.invited, [inviteID], ref⟩ add
              newMembership []).state add newMembership
            (updateToLeaveMembership ⟨Memb.invited, [inviteID], ref⟩ add
              newMembership []).updates).updates =
          (updateToLeaveMembership ⟨Memb.invited, [inviteID], ref⟩ add
            newMembership []).updates) := by
  refine ⟨⟨?_, ?_, ?_⟩, ?_⟩
  · by_cases h : isLeave mu <;> simp [updateToLeaveMembership, h]
  · intro h
    simp [updateToLeaveMembership, h]
  · intro h
    simp [updateToLeaveMembership, h]
  · intro inviteID ref
    refine ⟨?_, ?_⟩ <;>
      simp [updateToLeaveMembership, setToLeave, isLeave]

/-- C5: a change whose classified old and new memberships coincide on a
non-join value is skipped whole — the accumulator is returned as is and the
environment is untouched (no handle opened, no handle operation) — while a
join-to-join transition still opens the participant's handle. -/
theorem updateMembership_noop_shortcircuit (env : UpdaterEnv) (nid : Nat)
    (remove add : Option Event) (updates : List OutputEvent) :
    (∀ m, classifyMembership remove = Except.ok m →
       classifyMembership add = Except.ok m → m ≠ Join →
       updateMembership env nid remove add updates = UMResult.ret updates none env)
    ∧ (∀ ev, classifyMembership remove = Except.ok Join → add = some ev →
        ev.Membership = Except.ok Join → env.openFails.contains nid = false →
        ∃ envr, (updateMembership env nid remove add updates).envOf = some envr ∧
          envr.opens = env.opens ++ [nid]) := by
  constructor
  · intro m h1 h2 hm
    unfold updateMembership
    rw [h1, h2]
    simp [hm]
  · intro ev h1 hadd hmem hopen
    subst hadd
    have h2 : classifyMembership (some ev) = Except.ok Join := by
      simp [classifyMembership, hmem]
    have hcond : ¬ (Join = Join ∧ Join ≠ Join) := by simp
    have hji : ¬ Join = Invite := by simp [Join, Invite]
    simp only [updateMembership, h1, h2, if_neg hcond, membershipUpdater, hopen,
      Bool.false_eq_true, if_false, if_neg hji, if_pos rfl, UMResult.envOf]
    exact ⟨_, rfl, by simp [writeState]⟩

/-- Every error exit of the change loop returns `nil` records. -/
theorem processChanges_error_records (events : List (Nat × Event))
    (env : UpdaterEnv) (changes : List stateChange)
    (updates records : List OutputEvent) (e : Err) (envr : UpdaterEnv)
    (h : processChanges events env changes updates =
      UMSResult.ret records (some e) envr) :
    records = [] := by
  induction changes generalizing env updates with
  | nil => simp [processChanges] at h
  | cons c rest ih =>
    simp only [processChanges] at h
    cases hum : updateMembership env c.tuple.EventStateKeyNID
        (if c.removedEventNID ≠ 0 then lookupEvent events c.removedEventNID else none)
        (if c.addedEventNID ≠ 0 then lookupEvent events c.addedEventNID else none)
        updates with
    | panicked m =>
      rw [hum] at h
      cases h
    | ret ups err env1 =>
      rw [hum] at h
      cases err with
      | some e1 =>
        injection h with h1
        exact h1.symm
      | none => exact ih env1 ups h

/-- C6: any failing step makes `updateMemberships` return a non-nil error
together with zero output records, never a partial record list. -/
theorem updateMemberships_all_or_nothing (db : DB) (env : UpdaterEnv)
    (removed added : List StateEntry) (records : List OutputEvent) (e : Err)
    (envr : UpdaterEnv)
    (h : updateMemberships db env removed added =
      UMSResult.ret records (some e) envr) :
    records = [] := by
  simp only [updateMemberships] at h
  cases hdb : DB.Events db (collectEventNIDs (membershipChanges removed added)) with
  | error e0 =>
    rw [hdb] at h
    injection h with h1
    exact h1.symm
  | ok events =>
    rw [hdb] at h
    exact processChanges_error_records _ _ _ _ _ _ _ h

/-- Witness for C6: a failing batch load returns the error with no records. -/
theorem updateMemberships_all_or_nothing_witness :
    ([] : List OutputEvent) = [] :=
  updateMemberships_all_or_nothing ⟨[], true⟩ ⟨"1", [], [], []⟩ [] [⟨⟨5, 1⟩, 1⟩]
    [] Err.storeError ⟨"1", [], [], []⟩ rfl

/-- C7: a change that survives the no-op short-circuit (old membership not
the leave default) yet resolves no added event fails with the "add should
not be nil" error — returned, not panicked — and the whole call surfacing
that error returns zero output records. -/
theorem updateMembership_missing_add (env : UpdaterEnv) (nid : Nat)
    (remove : Option Event) (updates : List OutputEvent) (m : String)
    (hold : classifyMembership remove = Except.ok m) (hm : m ≠ Leave) :
    updateMembership env nid remove none updates =
      UMResult.ret updates (some Err.addNil) env
    ∧ ∀ (db : DB) (removed added : List StateEntry) (records : List OutputEvent)
        (envr : UpdaterEnv),
        updateMemberships db env removed added =
          UMSResult.ret records (some Err.addNil) envr → records = [] := by
  constructor
  · have hcond : ¬ (m = Leave ∧ Leave ≠ Join) := fun hc => hm hc.1
    have hnone : classifyMembership none = Except.ok Leave := rfl
    simp only [updateMembership, hold, hnone, if_neg hcond]
  · intro db removed added records envr h
    exact updateMemberships_all_or_nothing db env removed added records
      Err.addNil envr h

/-- Witness for C7: an old membership of join with no added event. -/
theorem updateMembership_missing_add_witness :
    updateMembership ⟨"1", [], [], []⟩ 7 (some ⟨"$e2", "@a", "@a", some "join"⟩)
        none [] =
      UMResult.ret [] (some Err.addNil) ⟨"1", [], [], []⟩ :=
  (updateMembership_missing_add ⟨"1", [], [], []⟩ 7
    (some ⟨"$e2", "@a", "@a", some "join"⟩) [] Join rfl (by decide)).1

/-- Counterexample for C8: at a change adding a "knock" membership,
`updateMembership` panics — the source's `default:` branch — instead of
returning an error value to the caller. -/
theorem updateMembership_invalid_value_counterexample :
    updateMembership env0 7 none (some knockEvent) [] = UMResult.panicked "knock"
    ∧ (updateMembership env0 7 none (some knockEvent) []).isRet = false := by
  constructor <;> rfl

/-- C8 (amended): a change whose classified new membership lies outside the
enumeration {invite, join, leave, ban}, differs from the old membership and
reaches the dispatch (the participant handle opens) makes `updateMembership`
panic with the offending value, rather than return an error to the caller. -/
theorem updateMembership_invalid_value_panics (env : UpdaterEnv) (nid : Nat)
    (remove : Option Event) (ev : Event) (updates : List OutputEvent)
    (oldM newM : String)
    (hold : classifyMembership remove = Except.ok oldM)
    (hnew : ev.Membership = Except.ok newM)
    (hne : oldM ≠ newM)
    (hinvite : newM ≠ Invite) (hjoin : newM ≠ Join) (hleave : newM ≠ Leave)
    (hban : newM ≠ Ban)
    (hopen : env.openFails.contains nid = false) :
    updateMembership env nid remove (some ev) updates =
      UMResult.panicked newM := by
  have h2 : classifyMembership (some ev) = Except.ok newM := by
    simp [classifyMembership, hnew]
  have hcond : ¬ (oldM = newM ∧ newM ≠ Join) := fun hc => hne hc.1
  have hlb : ¬ (newM = Leave ∨ newM = Ban) := by
    rintro (h | h)
    · exact hleave h
    · exact hban h
  simp only [updateMembership, hold, h2, if_neg hcond, membershipUpdater, hopen,
    Bool.false_eq_true, if_false, if_neg hinvite, if_neg hjoin, if_neg hlb]

/-- Witness for the amended C8 at the "knock" event. -/
theorem updateMembership_invalid_value_panics_witness :
    updateMembership env0 7 none (some knockEvent) [] =
      UMResult.panicked "knock" :=
  updateMembership_invalid_value_panics env0 7 none knockEvent [] Leave "knock"
    rfl rfl (by decide) (by decide) (by decide) (by decide) (by decide) rfl

/-- C9: old membership is classified from the removed event and new
membership from the added event, `Leave` standing in whenever the
corresponding event is absent; an event body whose membership field is
absent or malformed fails the operation with the parse error, and the whole
call surfacing it returns zero output records. -/
theorem updateMembership_classification (env : UpdaterEnv) (nid : Nat)
    (remove add : Option Event) (updates : List OutputEvent) :
    (∀ re, remove = some re → re.Membership = Except.error Err.parseError →
       updateMembership env nid remove add updates =
         UMResult.ret [] (some Err.parseError) env)
    ∧ (∀ ae m, add = some ae → classifyMembership remove = Except.ok m →
        ae.Membership = Except.error Err.parseError →
        updateMembership env nid remove add updates =
          UMResult.ret [] (some Err.parseError) env)
    ∧ (∀ ae, remove = none → add = some ae → ae.Membership = Except.ok Leave →
        updateMembership env nid remove add updates = UMResult.ret updates none env)
    ∧ (add = none → classifyMembership remove = Except.ok Leave →
        updateMembership env nid remove add updates = UMResult.ret updates none env)
    ∧ (∀ (db : DB) (removed added : List StateEntry)
        (records : List OutputEvent) (envr : UpdaterEnv),
        updateMemberships db env removed added =
          UMSResult.ret records (some Err.parseError) envr → records = []) := by
  refine ⟨?_, ?_, ?_, ?_, ?_⟩
  · intro re hre hmem
    subst hre
    have h1 : classifyMembership (some re) = Except.error Err.parseError := by
      simp [classifyMembership, hmem]
    simp only [updateMembership, h1]
  · intro ae m hae hold hmem
    subst hae
    have h2 : classifyMembership (some ae) = Except.error Err.parseError := by
      simp [classifyMembership, hmem]
    simp only [updateMembership, hold, h2]
  · intro ae hre hae hmem
    subst hre
    subst hae
    have h1 : classifyMembership (none : Option Event) = Except.ok Leave := rfl
    have h2 : classifyMembership (some ae) = Except.ok Leave := by
      simp [classifyMembership, hmem]
    simp only [updateMembership, h1, h2]
    simp [Leave, Join]
  · intro hae hold
    subst hae
    have h2 : classifyMembership (none : Option Event) = Except.ok Leave := rfl
    simp only [updateMembership, hold, h2]
    simp [Leave, Join]
  · intro db removed added records envr h
    exact updateMemberships_all_or_nothing db env removed added records
      Err.parseError envr h

/-- C10: the storage opener chooses sqlite3 exactly for a parsed URL whose
scheme is "file", and postgres — handed the same data source name and
properties — for scheme "postgres", any other scheme, or a parse failure;
the dispatch itself never produces an error. -/
theorem NewDatabase_scheme_dispatch (urlParse : String → Except String URL)
    (dataSourceName : String) (props : DbProperties) :
    (NewDatabase urlParse dataSourceName props = DBChoice.sqlite3 dataSourceName ↔
      ∃ uri, urlParse dataSourceName = Except.ok uri ∧ uri.Scheme = "file")
    ∧ (NewDatabase urlParse dataSourceName props = DBChoice.sqlite3 dataSourceName ∨
       NewDatabase urlParse dataSourceName props =
         DBChoice.postgres dataSourceName props) := by
  cases hp : urlParse dataSourceName with
  | error msg =>
    constructor
    · constructor
      · intro h
        simp [NewDatabase, hp] at h
      · rintro ⟨uri, huri, _⟩
        cases huri
    · right
      simp [NewDatabase, hp]
  | ok uri =>
    by_cases hs : uri.Scheme = "file"
    · constructor
      · constructor
        · intro _
          exact ⟨uri, rfl, hs⟩
        · intro _
          simp [NewDatabase, hp, hs]
      · left
        simp [NewDatabase, hp, hs]
    · constructor
      · constructor
        · intro h
          by_cases hpg : uri.Scheme = "postgres" <;>
            simp [NewDatabase, hp, hs, hpg] at h
        · rintro ⟨uri2, huri, hs2⟩
          injection huri with huri
          subst huri
          exact absurd hs2 hs
      · right
        by_cases hpg : uri.Scheme = "postgres" <;>
          simp [NewDatabase, hp, hs, hpg]
